import Mathlib

/-!
Shallow embedding of `src/animations.js` (wedding-website visibility tracker).

Geometry is modelled over `ℚ`: a DOM rect is its `left` coordinate and `width`,
and the horizontal center is `left + width / 2`, exactly as computed by
`getBoundingClientRect()` plus the arithmetic in the source.  A section element
is a rect together with the presence bit of the `is-visible` marker class.
DOM side effects (class mutations, forced reflow reads, listener registration,
timer scheduling, the `console.warn` call and the element queries of `init`)
are reified as an explicit `Effect` trace returned next to the new state.
-/

/-- A DOM bounding rectangle restricted to the horizontal axis, as consumed by
`checkVisibleSection` (`rect.left` and `rect.width`). -/
structure Rect where
  left : ℚ
  width : ℚ
deriving DecidableEq

/-- `rect.left + rect.width / 2`, the horizontal center used both for the
container (`viewportCenter`) and for each section (`sectionCenter`). -/
def centerOf (r : Rect) : ℚ := r.left + r.width / 2

/-- A section element: its bounding rect and whether it currently carries the
`is-visible` marker class. -/
structure SectionEl where
  rect : Rect
  visible : Bool
deriving DecidableEq

/-- Default element for `List.getD` indexing. -/
def dflt : SectionEl := ⟨⟨0, 0⟩, false⟩

/-- Actions the source schedules with `setTimeout`. -/
inductive TimerAction where
  | markFirst
  | recompute
deriving DecidableEq

/-- Observable DOM / platform effects emitted by the tracker, in program order.
`removeClass j` / `addClass j` mutate the `is-visible` class of section `j`;
`reflowRead j` is the forced synchronous layout read `void target.offsetWidth`;
the remaining constructors are `console.warn`, the two `querySelector` calls of
`init`, `observer.observe`, the three `addEventListener` registrations and
`setTimeout` scheduling. -/
inductive Effect where
  | warn
  | queryDom
  | observe (j : Nat)
  | addScrollListener
  | addTouchListener
  | addResizeListener
  | schedule (delayMs : Nat) (action : TimerAction)
  | removeClass (j : Nat)
  | reflowRead (j : Nat)
  | addClass (j : Nat)
deriving DecidableEq

/-- Effects that write DOM element state (an attribute of some element); reads,
listener/observer registration, timers and console output are not writes. -/
def Effect.isElemWrite : Effect → Bool
  | .removeClass _ => true
  | .addClass _ => true
  | _ => false

/-- The module-level mutable state of the script: `isInitialized`, `container`,
`sections`. -/
structure TrackerState where
  isInitialized : Bool
  container : Option Rect
  sections : List SectionEl
deriving DecidableEq

/-- `CONFIG` from the source (only the field the claims use). -/
def CONFIG_scrollDebounce : ℚ := 100

/-- `Math.abs`, written as an executable conditional. -/
def mathAbs (x : ℚ) : ℚ := if x < 0 then -x else x

/-- One step of the linear scan in `checkVisibleSection`: the accumulator is
`none` before the first iteration (JS starts from `minDistance = Infinity`,
which any finite distance beats) and `some (index, minDistance)` afterwards;
only a strictly smaller distance replaces the candidate. -/
def scanStep (c : ℚ) (acc : Option (Nat × ℚ)) (idx : Nat) (s : SectionEl) :
    Option (Nat × ℚ) :=
  let d := mathAbs (centerOf s.rect - c)
  match acc with
  | none => some (idx, d)
  | some (i, m) => if d < m then some (idx, d) else some (i, m)

/-- The scan of `checkVisibleSection` over the remaining sections, where `idx`
is the array index of the head of the list. -/
def scanFrom (c : ℚ) : Nat → Option (Nat × ℚ) → List SectionEl → Option (Nat × ℚ)
  | _, acc, [] => acc
  | idx, acc, s :: rest => scanFrom c (idx + 1) (scanStep c acc idx s) rest

/-- Index of `closestSection` chosen by `checkVisibleSection`, or `none` when
the section list is empty (JS leaves `closestSection = null`). -/
def findClosestIdx (c : ℚ) (ss : List SectionEl) : Option Nat :=
  (scanFrom c 0 none ss).map Prod.fst

/-- The reset loop of `checkVisibleSection`: every section other than
`closestSection` gets `classList.remove('is-visible')`; `j` is the array index
of the head of the list. -/
def resetFrom (closest : Option Nat) : Nat → List SectionEl → List SectionEl × List Effect
  | _, [] => ([], [])
  | j, s :: rest =>
    if closest = some j then
      (s :: (resetFrom closest (j + 1) rest).1, (resetFrom closest (j + 1) rest).2)
    else
      ({ s with visible := false } :: (resetFrom closest (j + 1) rest).1,
        Effect.removeClass j :: (resetFrom closest (j + 1) rest).2)

/-- Overwrite the `is-visible` bit of the section at index `n` (out-of-range
indices leave the list unchanged). -/
def setVis (b : Bool) : Nat → List SectionEl → List SectionEl
  | _, [] => []
  | 0, s :: rest => { s with visible := b } :: rest
  | n + 1, s :: rest => s :: setVis b n rest

/-- `checkVisibleSection()`: returns `(sections, [])` when `container` is null;
otherwise scans for the section whose center is closest to the container
center, removes the class from every other section, then performs the
remove → forced reflow → add retrigger cycle on the closest one. -/
def checkVisibleSection (container : Option Rect) (ss : List SectionEl) :
    List SectionEl × List Effect :=
  match container with
  | none => (ss, [])
  | some c =>
    match findClosestIdx (centerOf c) ss with
    | none => resetFrom none 0 ss
    | some i =>
      (setVis true i (resetFrom (some i) 0 ss).1,
        (resetFrom (some i) 0 ss).2 ++
          [Effect.removeClass i, Effect.reflowRead i, Effect.addClass i])

/-- One IntersectionObserver notification entry: `entry.isIntersecting`,
`entry.intersectionRatio`, and the array index of `entry.target`. -/
structure Entry where
  isIntersecting : Bool
  intersectionRatio : ℚ
  target : Nat
deriving DecidableEq

/-- The body of the observer callback for a single entry: ratio ≥ 0.3 (while
intersecting) retriggers the class of the target; ratio < 0.1 removes it;
otherwise nothing happens. -/
def observerEntryStep (ss : List SectionEl) (e : Entry) :
    List SectionEl × List Effect :=
  if e.isIntersecting = true ∧ (3 : ℚ) / 10 ≤ e.intersectionRatio then
    (setVis true e.target ss,
      [Effect.removeClass e.target, Effect.reflowRead e.target,
        Effect.addClass e.target])
  else if e.intersectionRatio < (1 : ℚ) / 10 then
    (setVis false e.target ss, [Effect.removeClass e.target])
  else (ss, [])

/-- The observer callback over a whole notification batch (`entries.forEach`). -/
def observerCallback (ss : List SectionEl) : List Entry → List SectionEl × List Effect
  | [] => (ss, [])
  | e :: rest =>
    ((observerCallback (observerEntryStep ss e).1 rest).1,
      (observerEntryStep ss e).2 ++ (observerCallback (observerEntryStep ss e).1 rest).2)

/-- Effects of `setupIntersectionObserver` for `n` sections: observe each
section, then register the scroll and touchend listeners on the container. -/
def setupIntersectionObserverFx (n : Nat) : List Effect :=
  (List.range n).map Effect.observe ++
    [Effect.addScrollListener, Effect.addTouchListener]

/-- `setupScrollFallback`: registers scroll and resize listeners and runs an
immediate `checkVisibleSection()`. -/
def setupScrollFallbackFx (c : Rect) (ss : List SectionEl) :
    List SectionEl × List Effect :=
  ((checkVisibleSection (some c) ss).1,
    [Effect.addScrollListener, Effect.addResizeListener] ++
      (checkVisibleSection (some c) ss).2)

/-- The DOM environment `init` queries: the result of
`querySelector('.snap-container')`, of `querySelectorAll('section.snap-page')`
(with the current class state of each element), and whether
`IntersectionObserver` exists. -/
structure Dom where
  qContainer : Option Rect
  qSections : List SectionEl
  hasIntersectionObserver : Bool

/-- The timer callback of `init`: `if (sections[0]) sections[0].classList.add('is-visible')`. -/
def markFirstVisible (ss : List SectionEl) : List SectionEl × List Effect :=
  match ss with
  | [] => ([], [])
  | s :: rest => ({ s with visible := true } :: rest, [Effect.addClass 0])

/-- `init()`: the initialized guard, the two element queries, the missing-DOM
warning path, mode selection, the 50 ms first-section timer, and setting the
initialized flag. -/
def init (st : TrackerState) (dom : Dom) : TrackerState × List Effect :=
  if st.isInitialized = true then (st, [])
  else
    match dom.qContainer, dom.qSections with
    | none, ss => (⟨false, none, ss⟩, [Effect.queryDom, Effect.warn])
    | some c, [] => (⟨false, some c, []⟩, [Effect.queryDom, Effect.warn])
    | some c, s :: rest =>
      if dom.hasIntersectionObserver = true then
        (⟨true, some c, s :: rest⟩,
          Effect.queryDom :: setupIntersectionObserverFx (s :: rest).length ++
            [Effect.schedule 50 TimerAction.markFirst])
      else
        (⟨true, some c, (setupScrollFallbackFx c (s :: rest)).1⟩,
          Effect.queryDom :: (setupScrollFallbackFx c (s :: rest)).2 ++
            [Effect.schedule 50 TimerAction.markFirst])

/-- The debounced scroll handler: `clearTimeout(scrollTimer)` followed by
`scrollTimer = setTimeout(checkVisibleSection, delay)` — whatever was pending
is replaced by a timer due at `now + delay`. -/
def scrollHandler (delay : ℚ) (now : ℚ) (pending : Option ℚ) : Option ℚ :=
  match pending with
  | _ => some (now + delay)

/-- Timed run of the scroll debouncer over an ascending list of scroll-event
times: a pending timer due no later than the next event fires (one recompute);
otherwise the event cancels and reschedules it.  A timer still pending after
the last event fires unconditionally.  Returns the recompute times. -/
def runScroll (delay : ℚ) : Option ℚ → List ℚ → List ℚ
  | pending, [] => pending.toList
  | pending, t :: rest =>
    match pending with
    | none => runScroll delay (scrollHandler delay t none) rest
    | some f =>
      if f ≤ t then f :: runScroll delay (scrollHandler delay t none) rest
      else runScroll delay (scrollHandler delay t (some f)) rest

/-- The touchend handler: each touchend at time `t` schedules an independent
`setTimeout(checkVisibleSection, 200)` (no cancellation). -/
def touchendHandler (now : ℚ) (scheduled : List ℚ) : List ℚ :=
  scheduled ++ [now + 200]

/-- Recompute times produced by a list of touchend events. -/
def runTouchend (ts : List ℚ) : List ℚ :=
  ts.foldl (fun acc t => touchendHandler t acc) []

/-- Witness data: a one-section DOM in observer mode, and a fresh tracker. -/
def rectEx : Rect := ⟨0, 100⟩

/-- Witness data: a single section spanning the container. -/
def sEx : SectionEl := ⟨⟨0, 100⟩, false⟩

/-- Witness data: DOM with container and one section, observer available. -/
def domEx : Dom := ⟨some rectEx, [sEx], true⟩

/-- Witness data: a DOM where the container query fails. -/
def domFailEx : Dom := ⟨none, [], true⟩

/-- Witness data: the fresh tracker state. -/
def stEx : TrackerState := ⟨false, none, []⟩

/-- Witness data: an intersecting entry in the dead zone (ratio 0.2). -/
def entryEx : Entry := ⟨true, 1 / 5, 0⟩

/-- Absolute distance between a section's center and coordinate `c`
(`Math.abs(sectionCenter - viewportCenter)`). -/
def distTo (c : ℚ) (s : SectionEl) : ℚ := mathAbs (centerOf s.rect - c)

/-- The executable `Math.abs` model coincides with the mathematical absolute
value on `ℚ`. -/
theorem mathAbs_eq_abs (x : ℚ) : mathAbs x = |x| := by
  unfold mathAbs
  by_cases h : x < 0
  · rw [if_pos h, abs_of_neg h]
  · rw [if_neg h, abs_of_nonneg (not_lt.mp h)]

/-- Invariant of the linear scan once a candidate exists: the final candidate
never worsens, bounds every remaining distance, and is either the incoming
candidate (when nothing beats it strictly) or the first strict improvement. -/
theorem scanFrom_some_spec (c : ℚ) (l : List SectionEl) :
    ∀ (idx i : Nat) (m : ℚ),
      ∃ p : Nat × ℚ, scanFrom c idx (some (i, m)) l = some p ∧
        p.2 ≤ m ∧
        (∀ k, k < l.length → p.2 ≤ distTo c (l.getD k dflt)) ∧
        ((p.1 = i ∧ p.2 = m) ∨
          (∃ k, k < l.length ∧ p.1 = idx + k ∧
            p.2 = distTo c (l.getD k dflt) ∧ p.2 < m ∧
            ∀ j, j < k → p.2 < distTo c (l.getD j dflt))) := by
  induction l with
  | nil =>
    intro idx i m
    exact ⟨(i, m), rfl, le_refl _, by simp, Or.inl ⟨rfl, rfl⟩⟩
  | cons s rest ih =>
    intro idx i m
    by_cases hd : distTo c s < m
    · have hd' : mathAbs (centerOf s.rect - c) < m := hd
      have hacc : scanStep c (some (i, m)) idx s =
          some (idx, mathAbs (centerOf s.rect - c)) := by
        simp [scanStep, hd']
      obtain ⟨p, hp, hle, hmin, hcase⟩ := ih (idx + 1) idx (distTo c s)
      refine ⟨p, ?_, ?_, ?_, ?_⟩
      · show scanFrom c (idx + 1) (scanStep c (some (i, m)) idx s) rest = some p
        rw [hacc]; exact hp
      · exact le_trans hle (le_of_lt hd)
      · intro k hk
        cases k with
        | zero => simpa using hle
        | succ k' =>
          rw [List.getD_cons_succ]
          exact hmin k' (by simpa using hk)
      · rcases hcase with ⟨h1, h2⟩ | ⟨k, hk, hpk, hpd, hplt, hfirst⟩
        · refine Or.inr ⟨0, by simp, by simpa using h1, by simpa using h2, ?_, ?_⟩
          · rw [h2]; exact hd
          · intro j hj; omega
        · refine Or.inr ⟨k + 1, by simpa using hk, by omega, by simpa using hpd, ?_, ?_⟩
          · exact lt_trans hplt hd
          · intro j hj
            cases j with
            | zero => simpa using hplt
            | succ j' =>
              rw [List.getD_cons_succ]
              exact hfirst j' (by omega)
    · have hd' : ¬ mathAbs (centerOf s.rect - c) < m := hd
      have hge : m ≤ distTo c s := not_lt.mp hd
      have hacc : scanStep c (some (i, m)) idx s = some (i, m) := by
        simp [scanStep, hd']
      obtain ⟨p, hp, hle, hmin, hcase⟩ := ih (idx + 1) i m
      refine ⟨p, ?_, hle, ?_, ?_⟩
      · show scanFrom c (idx + 1) (scanStep c (some (i, m)) idx s) rest = some p
        rw [hacc]; exact hp
      · intro k hk
        cases k with
        | zero => simpa using le_trans hle hge
        | succ k' =>
          rw [List.getD_cons_succ]
          exact hmin k' (by simpa using hk)
      · rcases hcase with hl | ⟨k, hk, hpk, hpd, hplt, hfirst⟩
        · exact Or.inl hl
        · refine Or.inr ⟨k + 1, by simpa using hk, by omega, by simpa using hpd, hplt, ?_⟩
          intro j hj
          cases j with
          | zero => simpa using lt_of_lt_of_le hplt hge
          | succ j' =>
            rw [List.getD_cons_succ]
            exact hfirst j' (by omega)

/-- `checkVisibleSection`'s scan on a nonempty section list selects an in-range
index whose distance is minimal, and strictly smaller than every earlier
section's distance (first strict minimum wins). -/
theorem findClosestIdx_spec (c : ℚ) (ss : List SectionEl) (hne : ss ≠ []) :
    ∃ i, findClosestIdx c ss = some i ∧ i < ss.length ∧
      (∀ j, j < ss.length → distTo c (ss.getD i dflt) ≤ distTo c (ss.getD j dflt)) ∧
      (∀ j, j < i → distTo c (ss.getD i dflt) < distTo c (ss.getD j dflt)) := by
  match ss, hne with
  | s :: rest, _ =>
    obtain ⟨p, hp, hle, hmin, hcase⟩ := scanFrom_some_spec c rest 1 0 (distTo c s)
    have heq : findClosestIdx c (s :: rest) = some p.1 := by
      unfold findClosestIdx
      have h0 : scanFrom c 0 none (s :: rest) = scanFrom c 1 (some (0, distTo c s)) rest := rfl
      rw [h0, hp]; rfl
    rcases hcase with ⟨h1, h2⟩ | ⟨k, hk, hpk, hpd, hplt, hfirst⟩
    · refine ⟨p.1, heq, by rw [h1]; simp, ?_, ?_⟩
      · intro j hj
        rw [h1, List.getD_cons_zero]
        cases j with
        | zero => rw [List.getD_cons_zero]
        | succ j' =>
          rw [List.getD_cons_succ, ← h2]
          exact hmin j' (by simpa using hj)
      · intro j hj
        rw [h1] at hj
        omega
    · have hgd : (s :: rest).getD p.1 dflt = rest.getD k dflt := by
        rw [hpk, Nat.add_comm, List.getD_cons_succ]
      refine ⟨p.1, heq, by rw [hpk]; simp; omega, ?_, ?_⟩
      · intro j hj
        rw [hgd, ← hpd]
        cases j with
        | zero =>
          rw [List.getD_cons_zero]
          exact le_of_lt hplt
        | succ j' =>
          rw [List.getD_cons_succ]
          exact hmin j' (by simpa using hj)
      · intro j hj
        rw [hgd, ← hpd]
        cases j with
        | zero =>
          rw [List.getD_cons_zero]
          exact hplt
        | succ j' =>
          rw [List.getD_cons_succ]
          exact hfirst j' (by omega)

/-- The selected index is always in range. -/
theorem findClosestIdx_lt (c : ℚ) (ss : List SectionEl) (i : Nat)
    (h : findClosestIdx c ss = some i) : i < ss.length := by
  cases ss with
  | nil => simp [findClosestIdx, scanFrom] at h
  | cons s rest =>
    obtain ⟨i', heq, hlt, _, _⟩ := findClosestIdx_spec c (s :: rest) (by simp)
    have : some i' = some i := heq.symm.trans h
    rwa [← Option.some_inj.mp this]

/-- The scan reads only the rects of the sections, never their class state. -/
theorem scanFrom_rect_congr (c : ℚ) :
    ∀ (l₁ l₂ : List SectionEl), l₁.map SectionEl.rect = l₂.map SectionEl.rect →
      ∀ idx acc, scanFrom c idx acc l₁ = scanFrom c idx acc l₂ := by
  intro l₁
  induction l₁ with
  | nil =>
    intro l₂ h idx acc
    cases l₂ with
    | nil => rfl
    | cons s₂ rest₂ => simp at h
  | cons s rest ih =>
    intro l₂ h idx acc
    cases l₂ with
    | nil => simp at h
    | cons s₂ rest₂ =>
      simp only [List.map_cons, List.cons.injEq] at h
      obtain ⟨hr, hrest⟩ := h
      show scanFrom c (idx + 1) (scanStep c acc idx s) rest =
        scanFrom c (idx + 1) (scanStep c acc idx s₂) rest₂
      have hstep : scanStep c acc idx s = scanStep c acc idx s₂ := by
        simp only [scanStep, hr]
      rw [hstep]
      exact ih rest₂ hrest (idx + 1) _

/-- The selected index depends only on the rects of the sections. -/
theorem findClosestIdx_congr (c : ℚ) (l₁ l₂ : List SectionEl)
    (h : l₁.map SectionEl.rect = l₂.map SectionEl.rect) :
    findClosestIdx c l₁ = findClosestIdx c l₂ := by
  unfold findClosestIdx
  rw [scanFrom_rect_congr c l₁ l₂ h 0 none]

/-- The reset loop preserves the number of sections. -/
theorem resetFrom_length (closest : Option Nat) :
    ∀ (j : Nat) (ss : List SectionEl), (resetFrom closest j ss).1.length = ss.length := by
  intro j ss
  induction ss generalizing j with
  | nil => rfl
  | cons s rest ih =>
    by_cases h : closest = some j
    · simp only [resetFrom, if_pos h, List.length_cons, ih (j + 1)]
    · simp only [resetFrom, if_neg h, List.length_cons, ih (j + 1)]

/-- Pointwise description of the reset loop: the closest section is untouched,
every other section has its class removed. -/
theorem resetFrom_getD (closest : Option Nat) :
    ∀ (j k : Nat) (ss : List SectionEl), k < ss.length →
      (resetFrom closest j ss).1.getD k dflt =
        (if closest = some (j + k) then ss.getD k dflt
         else { ss.getD k dflt with visible := false }) := by
  intro j k ss
  induction ss generalizing j k with
  | nil => intro h; simp at h
  | cons s rest ih =>
    intro hk
    cases k with
    | zero =>
      by_cases h : closest = some j <;>
        simp [resetFrom, h, Nat.add_zero]
    | succ k' =>
      have hrec : (resetFrom closest j (s :: rest)).1.getD (k' + 1) dflt =
          (resetFrom closest (j + 1) rest).1.getD k' dflt := by
        by_cases h : closest = some j <;> simp [resetFrom, h]
      rw [hrec, ih (j + 1) k' (by simpa using hk)]
      have harith : j + 1 + k' = j + (k' + 1) := by omega
      rw [harith, List.getD_cons_succ]

/-- The reset loop does not change any rect. -/
theorem resetFrom_rects (closest : Option Nat) :
    ∀ (j : Nat) (ss : List SectionEl),
      (resetFrom closest j ss).1.map SectionEl.rect = ss.map SectionEl.rect := by
  intro j ss
  induction ss generalizing j with
  | nil => rfl
  | cons s rest ih =>
    by_cases h : closest = some j
    · simp only [resetFrom, if_pos h, List.map_cons, ih (j + 1)]
    · simp only [resetFrom, if_neg h, List.map_cons, ih (j + 1)]

/-- Every effect of the reset loop is a class removal on a non-closest section
index within range. -/
theorem resetFrom_effects (closest : Option Nat) :
    ∀ (j : Nat) (ss : List SectionEl), ∀ e ∈ (resetFrom closest j ss).2,
      ∃ k, k < ss.length ∧ e = Effect.removeClass (j + k) ∧ closest ≠ some (j + k) := by
  intro j ss
  induction ss generalizing j with
  | nil => intro e he; simp [resetFrom] at he
  | cons s rest ih =>
    intro e he
    by_cases h : closest = some j
    · simp only [resetFrom, if_pos h] at he
      obtain ⟨k, hk, hek, hck⟩ := ih (j + 1) e he
      exact ⟨k + 1, by simpa using hk, by rw [hek]; congr 1; omega, by
        intro hc; exact hck (by rw [hc]; congr 1; omega)⟩
    · simp only [resetFrom, if_neg h, List.mem_cons] at he
      rcases he with he | he
      · exact ⟨0, by simp, by simpa using he, by simpa using h⟩
      · obtain ⟨k, hk, hek, hck⟩ := ih (j + 1) e he
        exact ⟨k + 1, by simpa using hk, by rw [hek]; congr 1; omega, by
          intro hc; exact hck (by rw [hc]; congr 1; omega)⟩

/-- `setVis` preserves length. -/
theorem setVis_length (b : Bool) :
    ∀ (n : Nat) (ss : List SectionEl), (setVis b n ss).length = ss.length := by
  intro n ss
  induction ss generalizing n with
  | nil => cases n <;> rfl
  | cons s rest ih =>
    cases n with
    | zero => rfl
    | succ n' => simp [setVis, ih n']

/-- `setVis` at the written index. -/
theorem setVis_getD_self (b : Bool) :
    ∀ (n : Nat) (ss : List SectionEl), n < ss.length →
      (setVis b n ss).getD n dflt = { ss.getD n dflt with visible := b } := by
  intro n ss
  induction ss generalizing n with
  | nil => intro h; simp at h
  | cons s rest ih =>
    intro hn
    cases n with
    | zero => simp [setVis]
    | succ n' =>
      simp only [setVis, List.getD_cons_succ]
      exact ih n' (by simpa using hn)

/-- `setVis` leaves every other index untouched. -/
theorem setVis_getD_other (b : Bool) :
    ∀ (n k : Nat) (ss : List SectionEl), k ≠ n →
      (setVis b n ss).getD k dflt = ss.getD k dflt := by
  intro n k ss
  induction ss generalizing n k with
  | nil => intro _; cases n <;> rfl
  | cons s rest ih =>
    intro hk
    cases n with
    | zero =>
      cases k with
      | zero => exact absurd rfl hk
      | succ k' => simp [setVis]
    | succ n' =>
      cases k with
      | zero => simp [setVis]
      | succ k' =>
        simp only [setVis, List.getD_cons_succ]
        exact ih n' k' (by omega)

/-- `setVis` does not change any rect. -/
theorem setVis_rects (b : Bool) :
    ∀ (n : Nat) (ss : List SectionEl),
      (setVis b n ss).map SectionEl.rect = ss.map SectionEl.rect := by
  intro n ss
  induction ss generalizing n with
  | nil => cases n <;> rfl
  | cons s rest ih =>
    cases n with
    | zero => simp [setVis]
    | succ n' => simp [setVis, ih n']

/-- Pointwise result of a recompute that selected index `i`: section `i` ends
visible, every other section ends not visible. -/
theorem check_some_getD (cont : Rect) (ss : List SectionEl) (i : Nat)
    (hi : findClosestIdx (centerOf cont) ss = some i) :
    ∀ k, k < ss.length →
      (checkVisibleSection (some cont) ss).1.getD k dflt =
        (if k = i then { ss.getD k dflt with visible := true }
         else { ss.getD k dflt with visible := false }) := by
  intro k hk
  have hch : (checkVisibleSection (some cont) ss).1 =
      setVis true i (resetFrom (some i) 0 ss).1 := by
    simp [checkVisibleSection, hi]
  rw [hch]
  by_cases hki : k = i
  · subst hki
    rw [setVis_getD_self true k ((resetFrom (some k) 0 ss).1)
      (by rw [resetFrom_length]; exact hk)]
    rw [resetFrom_getD (some k) 0 k ss hk]
    have hc : some k = some (0 + k) := by rw [Nat.zero_add]
    rw [if_pos hc, if_pos rfl]
  · rw [setVis_getD_other true i k _ hki]
    rw [resetFrom_getD (some i) 0 k ss hk]
    have hc : ¬ (some i = some (0 + k)) := by
      simp only [Option.some_inj]
      omega
    rw [if_neg hc, if_neg hki]

/-- A recompute never changes any section's rect. -/
theorem check_rects (cOpt : Option Rect) (ss : List SectionEl) :
    (checkVisibleSection cOpt ss).1.map SectionEl.rect = ss.map SectionEl.rect := by
  cases cOpt with
  | none => rfl
  | some c =>
    cases hfc : findClosestIdx (centerOf c) ss with
    | none => simp [checkVisibleSection, hfc, resetFrom_rects]
    | some i => simp [checkVisibleSection, hfc, setVis_rects, resetFrom_rects]

/-- A recompute never changes the number of sections. -/
theorem check_length (cOpt : Option Rect) (ss : List SectionEl) :
    (checkVisibleSection cOpt ss).1.length = ss.length := by
  have h := congrArg List.length (check_rects cOpt ss)
  simpa using h

/-- Trace of a recompute that selected index `i`: the reset removals followed
by the remove → reflow → add cycle on `i`. -/
theorem check_some_trace (cont : Rect) (ss : List SectionEl) (i : Nat)
    (hi : findClosestIdx (centerOf cont) ss = some i) :
    (checkVisibleSection (some cont) ss).2 =
      (resetFrom (some i) 0 ss).2 ++
        [Effect.removeClass i, Effect.reflowRead i, Effect.addClass i] := by
  simp [checkVisibleSection, hi]

/-- Every element write in a recompute's trace is a class mutation on an
in-range section index. -/
theorem check_effects_writes (cOpt : Option Rect) (ss : List SectionEl) :
    ∀ e ∈ (checkVisibleSection cOpt ss).2, e.isElemWrite = true →
      ∃ j, j < ss.length ∧ (e = Effect.removeClass j ∨ e = Effect.addClass j) := by
  cases cOpt with
  | none => intro e he; simp [checkVisibleSection] at he
  | some c =>
    cases hfc : findClosestIdx (centerOf c) ss with
    | none =>
      intro e he _
      simp only [checkVisibleSection, hfc] at he
      obtain ⟨k, hk, hek, _⟩ := resetFrom_effects none 0 ss e he
      exact ⟨k, hk, Or.inl (by simpa using hek)⟩
    | some i =>
      intro e he hw
      simp only [checkVisibleSection, hfc, List.mem_append] at he
      rcases he with he | he
      · obtain ⟨k, hk, hek, _⟩ := resetFrom_effects (some i) 0 ss e he
        exact ⟨k, hk, Or.inl (by simpa using hek)⟩
      · have hilt := findClosestIdx_lt _ _ _ hfc
        simp only [List.mem_cons, List.not_mem_nil, or_false] at he
        rcases he with he | he | he
        · exact ⟨i, hilt, Or.inl he⟩
        · rw [he] at hw; simp [Effect.isElemWrite] at hw
        · exact ⟨i, hilt, Or.inr he⟩

/-- Spec §8 example: container center 500, section centers 100, 520, 900 — the
scan selects the section with center 520. -/
theorem sanity_selection_example :
    findClosestIdx 500 [⟨⟨50, 100⟩, false⟩, ⟨⟨470, 100⟩, false⟩, ⟨⟨850, 100⟩, false⟩] =
      some 1 := by
  norm_num [findClosestIdx, scanFrom, scanStep, mathAbs, centerOf]

/-- Spec §8 tie example: centers 400 and 600, container center 500 — the first
section wins the tie. -/
theorem sanity_tie_example :
    findClosestIdx 500 [⟨⟨350, 100⟩, false⟩, ⟨⟨550, 100⟩, false⟩] = some 0 := by
  norm_num [findClosestIdx, scanFrom, scanStep, mathAbs, centerOf]

/-- C1: the recompute's scan selects the section minimizing the absolute
distance between its center and the container's center, and on ties the first
section in array order wins (only a strictly smaller distance replaces the
candidate). -/
theorem claim_closest_selection (cont : Rect) (ss : List SectionEl) (hne : ss ≠ []) :
    ∃ i, findClosestIdx (centerOf cont) ss = some i ∧ i < ss.length ∧
      (∀ j, j < ss.length →
        |centerOf (ss.getD i dflt).rect - centerOf cont| ≤
          |centerOf (ss.getD j dflt).rect - centerOf cont|) ∧
      (∀ j, j < i →
        |centerOf (ss.getD i dflt).rect - centerOf cont| <
          |centerOf (ss.getD j dflt).rect - centerOf cont|) := by
  obtain ⟨i, h1, h2, h3, h4⟩ := findClosestIdx_spec (centerOf cont) ss hne
  simp only [distTo, mathAbs_eq_abs] at h3 h4
  exact ⟨i, h1, h2, h3, h4⟩

/-- Witness for C1 on the spec's tie example (centers 400 and 600, container
center 500): hypotheses hold and the tie goes to index 0. -/
theorem claim_closest_selection_witness :
    (([⟨⟨350, 100⟩, false⟩, ⟨⟨550, 100⟩, false⟩] : List SectionEl) ≠ []) ∧
    (∃ i, findClosestIdx (centerOf ⟨400, 200⟩)
        [⟨⟨350, 100⟩, false⟩, ⟨⟨550, 100⟩, false⟩] = some i ∧
      i < ([⟨⟨350, 100⟩, false⟩, ⟨⟨550, 100⟩, false⟩] : List SectionEl).length ∧
      (∀ j, j < ([⟨⟨350, 100⟩, false⟩, ⟨⟨550, 100⟩, false⟩] : List SectionEl).length →
        |centerOf (([⟨⟨350, 100⟩, false⟩, ⟨⟨550, 100⟩, false⟩] : List SectionEl).getD i dflt).rect -
            centerOf ⟨400, 200⟩| ≤
          |centerOf (([⟨⟨350, 100⟩, false⟩, ⟨⟨550, 100⟩, false⟩] : List SectionEl).getD j dflt).rect -
            centerOf ⟨400, 200⟩|) ∧
      (∀ j, j < i →
        |centerOf (([⟨⟨350, 100⟩, false⟩, ⟨⟨550, 100⟩, false⟩] : List SectionEl).getD i dflt).rect -
            centerOf ⟨400, 200⟩| <
          |centerOf (([⟨⟨350, 100⟩, false⟩, ⟨⟨550, 100⟩, false⟩] : List SectionEl).getD j dflt).rect -
            centerOf ⟨400, 200⟩|)) :=
  ⟨by decide, claim_closest_selection ⟨400, 200⟩ _ (by decide)⟩

/-- C2: after any recompute with a non-null container and a nonempty section
list, exactly one section carries `is-visible` and every other section does
not, regardless of the prior class states. -/
theorem claim_recompute_exclusive (cont : Rect) (ss : List SectionEl) (hne : ss ≠ []) :
    (checkVisibleSection (some cont) ss).1.length = ss.length ∧
    ∃ i, i < ss.length ∧
      ((checkVisibleSection (some cont) ss).1.getD i dflt).visible = true ∧
      ∀ j, j < ss.length → j ≠ i →
        ((checkVisibleSection (some cont) ss).1.getD j dflt).visible = false := by
  obtain ⟨i, hfc, hilt, _, _⟩ := findClosestIdx_spec (centerOf cont) ss hne
  refine ⟨check_length _ _, i, hilt, ?_, ?_⟩
  · rw [check_some_getD cont ss i hfc i hilt, if_pos rfl]
  · intro j hj hji
    rw [check_some_getD cont ss i hfc j hj, if_neg hji]

/-- Witness for C2: both sections initially marked visible; after the
recompute exactly one (index 0, center 400 closest to 450) is visible. -/
theorem claim_recompute_exclusive_witness :
    (([⟨⟨350, 100⟩, true⟩, ⟨⟨550, 100⟩, true⟩] : List SectionEl) ≠ []) ∧
    ((checkVisibleSection (some ⟨350, 200⟩)
        [⟨⟨350, 100⟩, true⟩, ⟨⟨550, 100⟩, true⟩]).1.length =
      ([⟨⟨350, 100⟩, true⟩, ⟨⟨550, 100⟩, true⟩] : List SectionEl).length ∧
    ∃ i, i < ([⟨⟨350, 100⟩, true⟩, ⟨⟨550, 100⟩, true⟩] : List SectionEl).length ∧
      ((checkVisibleSection (some ⟨350, 200⟩)
          [⟨⟨350, 100⟩, true⟩, ⟨⟨550, 100⟩, true⟩]).1.getD i dflt).visible = true ∧
      ∀ j, j < ([⟨⟨350, 100⟩, true⟩, ⟨⟨550, 100⟩, true⟩] : List SectionEl).length → j ≠ i →
        ((checkVisibleSection (some ⟨350, 200⟩)
            [⟨⟨350, 100⟩, true⟩, ⟨⟨550, 100⟩, true⟩]).1.getD j dflt).visible = false) :=
  ⟨by decide, claim_recompute_exclusive ⟨350, 200⟩ _ (by decide)⟩

/-- C3: a recompute that selects a section always ends its trace with
remove → forced reflow → add on that section, and running the recompute again
immediately (geometry unchanged) produces the same cycle on the same section
even though it already carries the class. -/
theorem claim_retrigger_unconditional (cont : Rect) (ss : List SectionEl) (hne : ss ≠ []) :
    ∃ i, findClosestIdx (centerOf cont) ss = some i ∧
      (∃ es, (checkVisibleSection (some cont) ss).2 =
        es ++ [Effect.removeClass i, Effect.reflowRead i, Effect.addClass i]) ∧
      (∃ es, (checkVisibleSection (some cont) (checkVisibleSection (some cont) ss).1).2 =
        es ++ [Effect.removeClass i, Effect.reflowRead i, Effect.addClass i]) := by
  obtain ⟨i, hfc, _, _, _⟩ := findClosestIdx_spec (centerOf cont) ss hne
  have hfc₂ : findClosestIdx (centerOf cont) (checkVisibleSection (some cont) ss).1 =
      some i := by
    rw [findClosestIdx_congr (centerOf cont) _ ss (check_rects _ _)]
    exact hfc
  exact ⟨i, hfc, ⟨_, check_some_trace cont ss i hfc⟩, ⟨_, check_some_trace cont _ i hfc₂⟩⟩

/-- Witness for C3 on a concrete two-section layout. -/
theorem claim_retrigger_unconditional_witness :
    (([⟨⟨350, 100⟩, false⟩, ⟨⟨550, 100⟩, false⟩] : List SectionEl) ≠ []) ∧
    (∃ i, findClosestIdx (centerOf ⟨350, 200⟩)
        [⟨⟨350, 100⟩, false⟩, ⟨⟨550, 100⟩, false⟩] = some i ∧
      (∃ es, (checkVisibleSection (some ⟨350, 200⟩)
          [⟨⟨350, 100⟩, false⟩, ⟨⟨550, 100⟩, false⟩]).2 =
        es ++ [Effect.removeClass i, Effect.reflowRead i, Effect.addClass i]) ∧
      (∃ es, (checkVisibleSection (some ⟨350, 200⟩)
          (checkVisibleSection (some ⟨350, 200⟩)
            [⟨⟨350, 100⟩, false⟩, ⟨⟨550, 100⟩, false⟩]).1).2 =
        es ++ [Effect.removeClass i, Effect.reflowRead i, Effect.addClass i])) :=
  ⟨by decide, claim_retrigger_unconditional ⟨350, 200⟩ _ (by decide)⟩

/-- C10: calling the recompute while the container reference is null returns
immediately: the section states are untouched and no effect is emitted. -/
theorem claim_null_container_noop (ss : List SectionEl) :
    checkVisibleSection none ss = (ss, []) := rfl

/-- The observer callback never changes any rect (single entry). -/
theorem observer_entry_rects (ss : List SectionEl) (e : Entry) :
    (observerEntryStep ss e).1.map SectionEl.rect = ss.map SectionEl.rect := by
  unfold observerEntryStep
  by_cases h1 : e.isIntersecting = true ∧ (3 : ℚ) / 10 ≤ e.intersectionRatio
  · rw [if_pos h1]
    exact setVis_rects true e.target ss
  · rw [if_neg h1]
    by_cases h2 : e.intersectionRatio < (1 : ℚ) / 10
    · rw [if_pos h2]
      exact setVis_rects false e.target ss
    · rw [if_neg h2]

/-- Every element write of a single observer-entry step is a class mutation on
the (in-range) target index. -/
theorem observer_entry_writes (ss : List SectionEl) (e : Entry)
    (ht : e.target < ss.length) :
    ∀ ef ∈ (observerEntryStep ss e).2, ef.isElemWrite = true →
      ∃ j, j < ss.length ∧ (ef = Effect.removeClass j ∨ ef = Effect.addClass j) := by
  unfold observerEntryStep
  by_cases h1 : e.isIntersecting = true ∧ (3 : ℚ) / 10 ≤ e.intersectionRatio
  · rw [if_pos h1]
    intro ef hef hw
    simp only [List.mem_cons, List.not_mem_nil, or_false] at hef
    rcases hef with h | h | h
    · exact ⟨e.target, ht, Or.inl h⟩
    · rw [h] at hw
      simp [Effect.isElemWrite] at hw
    · exact ⟨e.target, ht, Or.inr h⟩
  · rw [if_neg h1]
    by_cases h2 : e.intersectionRatio < (1 : ℚ) / 10
    · rw [if_pos h2]
      intro ef hef _
      simp only [List.mem_singleton] at hef
      exact ⟨e.target, ht, Or.inl hef⟩
    · rw [if_neg h2]
      intro ef hef
      simp at hef

/-- The delayed first-section activation never changes any rect. -/
theorem markFirstVisible_rects (ss : List SectionEl) :
    (markFirstVisible ss).1.map SectionEl.rect = ss.map SectionEl.rect := by
  cases ss with
  | nil => rfl
  | cons s rest => simp [markFirstVisible]

/-- Every element write of the delayed activation is a class addition on
section 0 (which exists whenever an effect was emitted). -/
theorem markFirstVisible_writes (ss : List SectionEl) :
    ∀ ef ∈ (markFirstVisible ss).2, ef.isElemWrite = true →
      ∃ j, j < ss.length ∧ (ef = Effect.removeClass j ∨ ef = Effect.addClass j) := by
  cases ss with
  | nil => intro ef hef; simp [markFirstVisible] at hef
  | cons s rest =>
    intro ef hef _
    simp only [markFirstVisible, List.mem_singleton] at hef
    exact ⟨0, by simp, Or.inr hef⟩

/-- `setupIntersectionObserver` itself writes no element state. -/
theorem setupIntersectionObserverFx_no_writes (n : Nat) :
    ∀ ef ∈ setupIntersectionObserverFx n, ef.isElemWrite = false := by
  intro ef hef
  simp only [setupIntersectionObserverFx, List.mem_append, List.mem_map,
    List.mem_range, List.mem_cons, List.not_mem_nil, or_false] at hef
  rcases hef with ⟨j, _, hj⟩ | h | h
  · rw [← hj]; rfl
  · rw [h]; rfl
  · rw [h]; rfl

/-- On a fresh state with container and sections present, `init` sets the
initialized flag and schedules the 50 ms first-section timer. -/
theorem init_not_initialized_success (st : TrackerState) (dom : Dom) (c : Rect)
    (s : SectionEl) (rest : List SectionEl)
    (h0 : st.isInitialized = false) (hc : dom.qContainer = some c)
    (hs : dom.qSections = s :: rest) :
    (init st dom).1.isInitialized = true ∧
    Effect.schedule 50 TimerAction.markFirst ∈ (init st dom).2 := by
  by_cases hio : dom.hasIntersectionObserver = true
  · simp [init, h0, hc, hs, hio]
  · simp [init, h0, hc, hs, hio]

/-- The `isInitialized` guard: `init` on an initialized state does nothing. -/
theorem init_guard (st : TrackerState) (dom : Dom) (h : st.isInitialized = true) :
    init st dom = (st, []) := by
  unfold init
  rw [if_pos h]

/-- A nonempty list is a cons. -/
theorem exists_cons_of_ne_nil {α : Type} (l : List α) (h : l ≠ []) :
    ∃ (a : α) (t : List α), l = a :: t := by
  cases hq : l with
  | nil => exact absurd hq h
  | cons a t => exact ⟨a, t, rfl⟩

/-- C5: once a first call to `init` has succeeded, a second call hits the
`isInitialized` guard and returns immediately: no effects (no queries, no
listeners, no observer, no timer) and an unchanged tracker state. -/
theorem claim_init_idempotent (st : TrackerState) (dom dom₂ : Dom)
    (h0 : st.isInitialized = false) (c : Rect) (hc : dom.qContainer = some c)
    (hs : dom.qSections ≠ []) :
    (init st dom).1.isInitialized = true ∧
    init (init st dom).1 dom₂ = ((init st dom).1, []) := by
  obtain ⟨s, rest, hss⟩ := exists_cons_of_ne_nil dom.qSections hs
  have h1 := (init_not_initialized_success st dom c s rest h0 hc hss).1
  exact ⟨h1, init_guard (init st dom).1 dom₂ h1⟩

/-- Witness for C5 at the concrete fresh state and one-section DOM. -/
theorem claim_init_idempotent_witness :
    stEx.isInitialized = false ∧ domEx.qContainer = some rectEx ∧
    domEx.qSections ≠ [] ∧
    ((init stEx domEx).1.isInitialized = true ∧
      init (init stEx domEx).1 domEx = ((init stEx domEx).1, [])) :=
  ⟨rfl, rfl, by decide, claim_init_idempotent stEx domEx domEx rfl rectEx rfl (by decide)⟩

/-- C6: when the container query fails or no section matches, `init` emits
only the query and a warning — no listeners, no class mutation — leaves the
initialized flag unset, and a later attempt with a populated DOM succeeds. -/
theorem claim_init_missing_dom (st : TrackerState) (dom : Dom)
    (h0 : st.isInitialized = false)
    (hfail : dom.qContainer = none ∨ dom.qSections = []) :
    init st dom =
      (⟨false, dom.qContainer, dom.qSections⟩, [Effect.queryDom, Effect.warn]) ∧
    (∀ dom₂ : Dom, ∀ c₂ : Rect, dom₂.qContainer = some c₂ → dom₂.qSections ≠ [] →
      (init (init st dom).1 dom₂).1.isInitialized = true) := by
  have hmain : init st dom =
      (⟨false, dom.qContainer, dom.qSections⟩, [Effect.queryDom, Effect.warn]) := by
    rcases hfail with hf | hf
    · simp [init, h0, hf]
    · cases hq : dom.qContainer with
      | none => simp [init, h0, hq, hf]
      | some c => simp [init, h0, hq, hf]
  refine ⟨hmain, ?_⟩
  intro dom₂ c₂ hc₂ hs₂
  obtain ⟨s, rest, hss⟩ := exists_cons_of_ne_nil dom₂.qSections hs₂
  rw [hmain]
  exact (init_not_initialized_success ⟨false, dom.qContainer, dom.qSections⟩ dom₂ c₂
    s rest rfl hc₂ hss).1

/-- Witness for C6: missing container, then a successful retry on a populated
DOM. -/
theorem claim_init_missing_dom_witness :
    stEx.isInitialized = false ∧
    (domFailEx.qContainer = none ∨ domFailEx.qSections = []) ∧
    (init stEx domFailEx =
        (⟨false, domFailEx.qContainer, domFailEx.qSections⟩,
          [Effect.queryDom, Effect.warn]) ∧
      (∀ dom₂ : Dom, ∀ c₂ : Rect, dom₂.qContainer = some c₂ → dom₂.qSections ≠ [] →
        (init (init stEx domFailEx).1 dom₂).1.isInitialized = true)) :=
  ⟨rfl, Or.inl rfl, claim_init_missing_dom stEx domFailEx rfl (Or.inl rfl)⟩

/-- C8: every successful `init` schedules a 50 ms timer whose callback marks
the first section in document order visible, whatever the current class states
of the sections are (independent of scroll position), touching nothing else. -/
theorem claim_first_section_timer (st : TrackerState) (dom : Dom)
    (h0 : st.isInitialized = false) (c : Rect) (hc : dom.qContainer = some c)
    (hs : dom.qSections ≠ []) :
    Effect.schedule 50 TimerAction.markFirst ∈ (init st dom).2 ∧
    ∀ ss : List SectionEl, ss ≠ [] →
      ((markFirstVisible ss).1.getD 0 dflt).visible = true ∧
      (markFirstVisible ss).1.length = ss.length ∧
      (∀ j, j ≠ 0 → (markFirstVisible ss).1.getD j dflt = ss.getD j dflt) ∧
      (markFirstVisible ss).2 = [Effect.addClass 0] := by
  obtain ⟨s, rest, hss⟩ := exists_cons_of_ne_nil dom.qSections hs
  refine ⟨(init_not_initialized_success st dom c s rest h0 hc hss).2, ?_⟩
  intro ss hne
  obtain ⟨a, l, hal⟩ := exists_cons_of_ne_nil ss hne
  subst hal
  refine ⟨rfl, rfl, ?_, rfl⟩
  intro j hj
  cases j with
  | zero => exact absurd rfl hj
  | succ j' => rfl

/-- Witness for C8: a visible schedule effect and the callback acting on a
one-section list with the class initially absent. -/
theorem claim_first_section_timer_witness :
    stEx.isInitialized = false ∧ domEx.qContainer = some rectEx ∧
    domEx.qSections ≠ [] ∧
    (Effect.schedule 50 TimerAction.markFirst ∈ (init stEx domEx).2 ∧
      ∀ ss : List SectionEl, ss ≠ [] →
        ((markFirstVisible ss).1.getD 0 dflt).visible = true ∧
        (markFirstVisible ss).1.length = ss.length ∧
        (∀ j, j ≠ 0 → (markFirstVisible ss).1.getD j dflt = ss.getD j dflt) ∧
        (markFirstVisible ss).2 = [Effect.addClass 0]) :=
  ⟨rfl, rfl, by decide, claim_first_section_timer stEx domEx rfl rectEx rfl (by decide)⟩

/-- C4: per observer entry — ratio ≥ 0.3 retriggers (remove, forced reflow,
add, section ends visible); ratio < 0.1 removes the class; a ratio in the dead
zone [0.1, 0.3) changes nothing and emits nothing.  The well-formedness
hypothesis records the IntersectionObserver contract that an entry with
ratio ≥ 0.3 is an intersecting one. -/
theorem claim_observer_thresholds (ss : List SectionEl) (e : Entry)
    (hwf : (3 : ℚ) / 10 ≤ e.intersectionRatio → e.isIntersecting = true) :
    ((3 : ℚ) / 10 ≤ e.intersectionRatio →
      observerEntryStep ss e = (setVis true e.target ss,
        [Effect.removeClass e.target, Effect.reflowRead e.target,
          Effect.addClass e.target]) ∧
      (e.target < ss.length →
        ((observerEntryStep ss e).1.getD e.target dflt).visible = true)) ∧
    (e.intersectionRatio < (1 : ℚ) / 10 →
      observerEntryStep ss e = (setVis false e.target ss,
        [Effect.removeClass e.target]) ∧
      (e.target < ss.length →
        ((observerEntryStep ss e).1.getD e.target dflt).visible = false)) ∧
    ((1 : ℚ) / 10 ≤ e.intersectionRatio → e.intersectionRatio < (3 : ℚ) / 10 →
      observerEntryStep ss e = (ss, [])) := by
  refine ⟨?_, ?_, ?_⟩
  · intro h3
    have hstep : observerEntryStep ss e = (setVis true e.target ss,
        [Effect.removeClass e.target, Effect.reflowRead e.target,
          Effect.addClass e.target]) := by
      simp [observerEntryStep, hwf h3, h3]
    refine ⟨hstep, ?_⟩
    intro ht
    rw [hstep]
    rw [setVis_getD_self true e.target ss ht]
  · intro h1
    have hn3 : ¬ ((3 : ℚ) / 10 ≤ e.intersectionRatio) := by
      intro hge
      linarith
    have hcond : ¬ (e.isIntersecting = true ∧ (3 : ℚ) / 10 ≤ e.intersectionRatio) :=
      fun hand => hn3 hand.2
    have hstep : observerEntryStep ss e = (setVis false e.target ss,
        [Effect.removeClass e.target]) := by
      unfold observerEntryStep
      rw [if_neg hcond, if_pos h1]
    refine ⟨hstep, ?_⟩
    intro ht
    rw [hstep]
    rw [setVis_getD_self false e.target ss ht]
  · intro h1 h3
    have hn3 : ¬ ((3 : ℚ) / 10 ≤ e.intersectionRatio) := not_le.mpr h3
    have hn1 : ¬ (e.intersectionRatio < (1 : ℚ) / 10) := not_lt.mpr h1
    have hcond : ¬ (e.isIntersecting = true ∧ (3 : ℚ) / 10 ≤ e.intersectionRatio) :=
      fun hand => hn3 hand.2
    unfold observerEntryStep
    rw [if_neg hcond, if_neg hn1]

/-- Witness for C4 at a concrete entry with ratio 0.2 over one section. -/
theorem claim_observer_thresholds_witness :
    ((3 : ℚ) / 10 ≤ entryEx.intersectionRatio → entryEx.isIntersecting = true) ∧
    ((((3 : ℚ) / 10 ≤ entryEx.intersectionRatio →
      observerEntryStep [sEx] entryEx = (setVis true entryEx.target [sEx],
        [Effect.removeClass entryEx.target, Effect.reflowRead entryEx.target,
          Effect.addClass entryEx.target]) ∧
      (entryEx.target < ([sEx] : List SectionEl).length →
        ((observerEntryStep [sEx] entryEx).1.getD entryEx.target dflt).visible = true)) ∧
    (entryEx.intersectionRatio < (1 : ℚ) / 10 →
      observerEntryStep [sEx] entryEx = (setVis false entryEx.target [sEx],
        [Effect.removeClass entryEx.target]) ∧
      (entryEx.target < ([sEx] : List SectionEl).length →
        ((observerEntryStep [sEx] entryEx).1.getD entryEx.target dflt).visible = false)) ∧
    ((1 : ℚ) / 10 ≤ entryEx.intersectionRatio →
      entryEx.intersectionRatio < (3 : ℚ) / 10 →
      observerEntryStep [sEx] entryEx = ([sEx], [])))) :=
  ⟨fun _ => rfl, claim_observer_thresholds [sEx] entryEx (fun _ => rfl)⟩

/-- Every element write in `init`'s trace is a class mutation on an in-range
section index (writes only arise from the fallback mode's immediate
recompute; all other setup effects are registrations, reads or the warning). -/
theorem init_effects_writes (st : TrackerState) (dom : Dom) :
    ∀ ef ∈ (init st dom).2, ef.isElemWrite = true →
      ∃ j, j < dom.qSections.length ∧
        (ef = Effect.removeClass j ∨ ef = Effect.addClass j) := by
  intro ef hef hw
  by_cases h0 : st.isInitialized = true
  · rw [init_guard st dom h0] at hef
    simp at hef
  · cases hq : dom.qContainer with
    | none =>
      simp only [init, if_neg h0, hq] at hef
      simp only [List.mem_cons, List.not_mem_nil, or_false] at hef
      rcases hef with h | h <;> (rw [h] at hw; simp [Effect.isElemWrite] at hw)
    | some c =>
      cases hqs : dom.qSections with
      | nil =>
        simp only [init, if_neg h0, hq, hqs] at hef
        simp only [List.mem_cons, List.not_mem_nil, or_false] at hef
        rcases hef with h | h <;> (rw [h] at hw; simp [Effect.isElemWrite] at hw)
      | cons s rest =>
        by_cases hio : dom.hasIntersectionObserver = true
        · simp only [init, if_neg h0, hq, hqs, if_pos hio] at hef
          rcases List.mem_cons.mp hef with h | hef₂
          · rw [h] at hw; simp [Effect.isElemWrite] at hw
          · rcases List.mem_append.mp hef₂ with h | h
            · have hnw := setupIntersectionObserverFx_no_writes _ ef h
              rw [hw] at hnw
              simp at hnw
            · simp only [List.mem_singleton] at h
              rw [h] at hw; simp [Effect.isElemWrite] at hw
        · simp only [init, if_neg h0, hq, hqs, if_neg hio] at hef
          rcases List.mem_cons.mp hef with h | hef₂
          · rw [h] at hw; simp [Effect.isElemWrite] at hw
          · rcases List.mem_append.mp hef₂ with h | h
            · simp only [setupScrollFallbackFx, List.mem_append, List.mem_cons,
                List.not_mem_nil, or_false] at h
              rcases h with (h | h) | h
              · rw [h] at hw; simp [Effect.isElemWrite] at hw
              · rw [h] at hw; simp [Effect.isElemWrite] at hw
              · obtain ⟨j, hj, hor⟩ := check_effects_writes (some c) (s :: rest) ef h hw
                exact ⟨j, hj, hor⟩
            · simp only [List.mem_singleton] at h
              rw [h] at hw; simp [Effect.isElemWrite] at hw

/-- C9: all tracker operations (recompute, observer entry handling, delayed
first-section activation, init) leave every section's rect unchanged, and
every DOM element write in any of their effect traces is an is-visible class
add/remove on an in-range section index — no other attribute, element or
external state is written. -/
theorem claim_only_class_writes (cOpt : Option Rect) (ss ssO ssM : List SectionEl)
    (e : Entry) (st : TrackerState) (dom : Dom) (ht : e.target < ssO.length) :
    ((checkVisibleSection cOpt ss).1.map SectionEl.rect = ss.map SectionEl.rect ∧
      ∀ ef ∈ (checkVisibleSection cOpt ss).2, ef.isElemWrite = true →
        ∃ j, j < ss.length ∧ (ef = Effect.removeClass j ∨ ef = Effect.addClass j)) ∧
    ((observerEntryStep ssO e).1.map SectionEl.rect = ssO.map SectionEl.rect ∧
      ∀ ef ∈ (observerEntryStep ssO e).2, ef.isElemWrite = true →
        ∃ j, j < ssO.length ∧ (ef = Effect.removeClass j ∨ ef = Effect.addClass j)) ∧
    ((markFirstVisible ssM).1.map SectionEl.rect = ssM.map SectionEl.rect ∧
      ∀ ef ∈ (markFirstVisible ssM).2, ef.isElemWrite = true →
        ∃ j, j < ssM.length ∧ (ef = Effect.removeClass j ∨ ef = Effect.addClass j)) ∧
    (∀ ef ∈ (init st dom).2, ef.isElemWrite = true →
      ∃ j, j < dom.qSections.length ∧
        (ef = Effect.removeClass j ∨ ef = Effect.addClass j)) :=
  ⟨⟨check_rects cOpt ss, check_effects_writes cOpt ss⟩,
   ⟨observer_entry_rects ssO e, observer_entry_writes ssO e ht⟩,
   ⟨markFirstVisible_rects ssM, markFirstVisible_writes ssM⟩,
   init_effects_writes st dom⟩

/-- Witness for C9 at concrete one-section inputs. -/
theorem claim_only_class_writes_witness :
    entryEx.target < ([sEx] : List SectionEl).length ∧
    (((checkVisibleSection (some rectEx) [sEx]).1.map SectionEl.rect =
        ([sEx] : List SectionEl).map SectionEl.rect ∧
      ∀ ef ∈ (checkVisibleSection (some rectEx) [sEx]).2, ef.isElemWrite = true →
        ∃ j, j < ([sEx] : List SectionEl).length ∧
          (ef = Effect.removeClass j ∨ ef = Effect.addClass j)) ∧
    ((observerEntryStep [sEx] entryEx).1.map SectionEl.rect =
        ([sEx] : List SectionEl).map SectionEl.rect ∧
      ∀ ef ∈ (observerEntryStep [sEx] entryEx).2, ef.isElemWrite = true →
        ∃ j, j < ([sEx] : List SectionEl).length ∧
          (ef = Effect.removeClass j ∨ ef = Effect.addClass j)) ∧
    ((markFirstVisible [sEx]).1.map SectionEl.rect =
        ([sEx] : List SectionEl).map SectionEl.rect ∧
      ∀ ef ∈ (markFirstVisible [sEx]).2, ef.isElemWrite = true →
        ∃ j, j < ([sEx] : List SectionEl).length ∧
          (ef = Effect.removeClass j ∨ ef = Effect.addClass j)) ∧
    (∀ ef ∈ (init stEx domEx).2, ef.isElemWrite = true →
      ∃ j, j < domEx.qSections.length ∧
        (ef = Effect.removeClass j ∨ ef = Effect.addClass j))) :=
  ⟨by decide,
   claim_only_class_writes (some rectEx) [sEx] [sEx] [sEx] entryEx stEx domEx (by decide)⟩

/-- Folding the touchend handler accumulates one scheduled recompute per
event, each at its event time plus 200 ms. -/
theorem touchend_foldl (ts : List ℚ) :
    ∀ acc : List ℚ, ts.foldl (fun a t => touchendHandler t a) acc =
      acc ++ ts.map (fun t => t + 200) := by
  induction ts with
  | nil => intro acc; simp
  | cons t rest ih =>
    intro acc
    simp only [List.foldl_cons, List.map_cons]
    rw [ih (touchendHandler t acc)]
    simp [touchendHandler]

/-- A pending debounce timer survives a burst: if every successive gap stays
below the delay and the first event precedes the pending deadline, exactly one
recompute fires, at the last event time plus the delay. -/
theorem runScroll_pending_burst (delay : ℚ) :
    ∀ (ts : List ℚ) (hne : ts ≠ []) (t₀ : ℚ),
      ts.head hne < t₀ + delay →
      ts.Chain' (fun a b => b < a + delay) →
      runScroll delay (some (t₀ + delay)) ts = [ts.getLast hne + delay] := by
  intro ts
  induction ts with
  | nil => intro hne; exact absurd rfl hne
  | cons t rest ih =>
    intro hne t₀ hhead hchain
    have hh : t < t₀ + delay := hhead
    have hnotle : ¬ (t₀ + delay ≤ t) := not_le.mpr hh
    have hstep : runScroll delay (some (t₀ + delay)) (t :: rest) =
        runScroll delay (some (t + delay)) rest := by
      simp only [runScroll, scrollHandler, if_neg hnotle]
    rw [hstep]
    cases rest with
    | nil => simp [runScroll, List.getLast_singleton]
    | cons r rest₂ =>
      rw [List.chain'_cons] at hchain
      have hres := ih (by simp) t (by simpa using hchain.1) hchain.2
      rw [hres]
      simp [List.getLast_cons]

/-- C7: the container's scroll events are debounced with the 100 ms
`CONFIG.scrollDebounce` quiet period — each event cancels and reschedules the
pending timer, so any nonempty burst whose successive gaps are below the
period produces exactly one recompute, after the window elapses — while each
touchend event independently schedules a recompute a fixed 200 ms later. -/
theorem claim_debounce_timing (ts : List ℚ) (hne : ts ≠ [])
    (hburst : ts.Chain' (fun a b => a < b ∧ b < a + CONFIG_scrollDebounce)) :
    CONFIG_scrollDebounce = 100 ∧
    runScroll CONFIG_scrollDebounce none ts =
      [ts.getLast hne + CONFIG_scrollDebounce] ∧
    (∀ touches : List ℚ, runTouchend touches = touches.map (fun t => t + 200)) := by
  refine ⟨rfl, ?_, ?_⟩
  · cases ts with
    | nil => exact absurd rfl hne
    | cons t rest =>
      have hstep : runScroll CONFIG_scrollDebounce none (t :: rest) =
          runScroll CONFIG_scrollDebounce (some (t + CONFIG_scrollDebounce)) rest := by
        simp [runScroll, scrollHandler]
      rw [hstep]
      cases rest with
      | nil => simp [runScroll, List.getLast_singleton]
      | cons r rest₂ =>
        rw [List.chain'_cons] at hburst
        have hres := runScroll_pending_burst CONFIG_scrollDebounce (r :: rest₂)
          (by simp) t (by simpa using hburst.1.2)
          (List.Chain'.imp (fun a b hab => hab.2) hburst.2)
        rw [hres]
        simp [List.getLast_cons]
  · intro touches
    simpa [runTouchend] using touchend_foldl touches []

/-- Witness for C7: a burst of three scroll events at 0, 5 and 10 ms collapses
to one recompute at 110 ms. -/
theorem claim_debounce_timing_witness :
    (([0, 5, 10] : List ℚ) ≠ []) ∧
    (([0, 5, 10] : List ℚ).Chain'
      (fun a b => a < b ∧ b < a + CONFIG_scrollDebounce)) ∧
    (CONFIG_scrollDebounce = 100 ∧
      runScroll CONFIG_scrollDebounce none [0, 5, 10] =
        [([0, 5, 10] : List ℚ).getLast (by simp) + CONFIG_scrollDebounce] ∧
      (∀ touches : List ℚ, runTouchend touches = touches.map (fun t => t + 200))) :=
  ⟨by simp,
   by norm_num [List.chain'_cons, List.chain'_singleton, CONFIG_scrollDebounce],
   claim_debounce_timing [0, 5, 10] (by simp)
     (by norm_num [List.chain'_cons, List.chain'_singleton, CONFIG_scrollDebounce])⟩
